import Mathlib

/-!
Verification of the OpenInsight router monitor (`router_monitor.py`).

The development shallowly embeds the program's pure core:
* the Python string primitives the source relies on (`str.split()`,
  `str.strip()`, `str.splitlines()`, `float(...)`, `int(...)`,
  `os.path.basename`),
* `harvest_data`'s parsing of the three raw command outputs into a
  `Snapshot`,
* the workbook operations of `update_excel` / `update_dashboard` and the
  per-cycle orchestration of `main` (the workbook is a pure value, the
  on-disk file an `Option Workbook`, external file locks explicit booleans).

Python floats are modelled as exact rationals plus `inf`/`nan`
constructors; within the value ranges the program handles this coincides
with the observable parse/default behaviour the claims are about.
-/

namespace OpenInsight

/-! ### Python string primitives -/

/-- ASCII whitespace recognised by Python's `str.split()` / `str.strip()`. -/
def isPySpace (c : Char) : Bool :=
  c = ' ' || c = '\t' || c = '\n' || c = '\r' || c = '\x0b' || c = '\x0c'

/-- Drop the longest suffix satisfying `p`. -/
def dropEnd (p : Char → Bool) (cs : List Char) : List Char :=
  (cs.reverse.dropWhile p).reverse

/-- Python `str.strip()` (no argument): remove leading and trailing whitespace. -/
def pyStripList (cs : List Char) : List Char :=
  dropEnd isPySpace (cs.dropWhile isPySpace)

/-- Python `str.strip()` on strings. -/
def pyStrip (s : String) : String :=
  String.mk (pyStripList s.toList)

/-- Python `str.strip(set)`: remove leading and trailing characters drawn from `set`. -/
def pyStripCharsList (set : List Char) (cs : List Char) : List Char :=
  dropEnd (fun c => set.contains c) (cs.dropWhile (fun c => set.contains c))

/-- Python `str.strip(set)` on strings. -/
def pyStripChars (s : String) (set : List Char) : String :=
  String.mk (pyStripCharsList set s.toList)

/-- Worker for `str.split()`: accumulate the current word (reversed) and
break on runs of whitespace, discarding empty words. -/
def pySplitAux : List Char → List Char → List (List Char)
  | [], acc => if acc.isEmpty then [] else [acc.reverse]
  | c :: cs, acc =>
    if isPySpace c then
      if acc.isEmpty then pySplitAux cs [] else acc.reverse :: pySplitAux cs []
    else pySplitAux cs (c :: acc)

/-- Python `str.split()` (no argument) at the character-list level. -/
def pySplitList (cs : List Char) : List (List Char) :=
  pySplitAux cs []

/-- Python `str.split()` on strings. -/
def pySplit (s : String) : List String :=
  (pySplitList s.toList).map String.mk

/-- Worker for `str.splitlines()`: line breaks are `\r\n`, `\n` or `\r`. -/
def splitLinesAux : List Char → List Char → List (List Char)
  | [], acc => if acc.isEmpty then [] else [acc.reverse]
  | '\r' :: '\n' :: cs, acc => acc.reverse :: splitLinesAux cs []
  | '\n' :: cs, acc => acc.reverse :: splitLinesAux cs []
  | '\r' :: cs, acc => acc.reverse :: splitLinesAux cs []
  | c :: cs, acc => splitLinesAux cs (c :: acc)

/-- Python `str.splitlines()`. -/
def pySplitLines (s : String) : List String :=
  (splitLinesAux s.toList []).map String.mk

/-- Python `" ".join(xs)` at the character-list level. -/
def joinSpaceList : List (List Char) → List Char
  | [] => []
  | [w] => w
  | w :: ws => w ++ ' ' :: joinSpaceList ws

/-- Python `" ".join(xs)` on strings of a character-list list. -/
def joinSpace (ws : List (List Char)) : String :=
  String.mk (joinSpaceList ws)

/-- Python `os.path.basename` (POSIX): everything after the last `'/'`. -/
def pyBasename (s : String) : String :=
  String.mk ((s.toList.reverse.takeWhile (fun c => c ≠ '/')).reverse)

/-! ### Python numeric literal parsing (`int(...)`, `float(...)`) -/

/-- Value of a decimal digit string. -/
def natOfDigits (cs : List Char) : Nat :=
  cs.foldl (fun n c => 10 * n + (c.toNat - '0'.toNat)) 0

/-- Underscore placement check of Python numeric literals: every `'_'`
must sit between two digits.  `prev` is the preceding character. -/
def underscoresOKAux (prev : Char) : List Char → Bool
  | [] => true
  | c :: rest =>
    if c = '_' then
      match rest with
      | [] => false
      | next :: rest2 => prev.isDigit && next.isDigit && underscoresOKAux next rest2
    else underscoresOKAux c rest

/-- Underscore placement check, top level (a leading `'_'` is invalid). -/
def underscoresOK : List Char → Bool
  | [] => true
  | c :: rest => if c = '_' then false else underscoresOKAux c rest

/-- Split a leading `'+'`/`'-'` sign off a numeric literal; the boolean
is `true` for a negative sign. -/
def splitSign : List Char → Bool × List Char
  | [] => (false, [])
  | c :: r =>
    if c = '+' then (false, r)
    else if c = '-' then (true, r)
    else (false, c :: r)

/-- Python `int(s)`: strip whitespace, optional sign, decimal digits with
well-placed underscores; `none` models `ValueError`. -/
def pyIntOfString (s : String) : Option Int :=
  let signed := splitSign (pyStripList s.toList)
  let rest := signed.2
  if (!rest.isEmpty) && rest.all (fun c => c.isDigit || c == '_') && underscoresOK rest then
    let mag : Int := natOfDigits (rest.filter (fun c => c != '_'))
    some (if signed.1 then -mag else mag)
  else none

/-- A Python float value: an exact rational, a signed infinity, or NaN. -/
inductive PyFloat where
  | finite (q : ℚ)
  | inf (neg : Bool)
  | nan
deriving DecidableEq, Repr

/-- Exponent part of a float literal: empty, or `e`/`E`, optional sign,
digits; consumes the whole remainder.  The mantissa arrives as an exact
numerator/denominator pair, and the power of ten is folded into it. -/
def parseExpPart (num : Nat) (den : Nat) : List Char → Option ℚ
  | [] => some (mkRat num den)
  | e :: rest =>
    if e == 'e' || e == 'E' then
      let signed := splitSign rest
      let ds := signed.2
      if (!ds.isEmpty) && ds.all Char.isDigit then
        if signed.1 then some (mkRat num (den * 10 ^ natOfDigits ds))
        else some (mkRat (num * 10 ^ natOfDigits ds) den)
      else none
    else none

/-- Mantissa-and-exponent of a float literal (sign and underscores already
handled): `digits`, `digits.digits`, `.digits` or `digits.`, then an
optional exponent. -/
def parseMantExp (cs : List Char) : Option ℚ :=
  let ip := cs.takeWhile Char.isDigit
  let r1 := cs.dropWhile Char.isDigit
  match r1 with
  | '.' :: r2 =>
    let fp := r2.takeWhile Char.isDigit
    let r3 := r2.dropWhile Char.isDigit
    if ip.isEmpty && fp.isEmpty then none
    else parseExpPart (natOfDigits (ip ++ fp)) (10 ^ fp.length) r3
  | _ => if ip.isEmpty then none else parseExpPart (natOfDigits ip) 1 r1

/-- Python `float(s)`: strip whitespace, optional sign, then `inf`/`infinity`/
`nan` (case-insensitive) or a decimal literal with well-placed
underscores; `none` models `ValueError`. -/
def pyFloatOfString (s : String) : Option PyFloat :=
  let signed := splitSign (pyStripList s.toList)
  let rest := signed.2
  let low := rest.map Char.toLower
  if low = ['i', 'n', 'f'] ∨ low = ['i', 'n', 'f', 'i', 'n', 'i', 't', 'y'] then
    some (.inf signed.1)
  else if low = ['n', 'a', 'n'] then
    some .nan
  else if underscoresOK rest then
    match parseMantExp (rest.filter (fun c => c != '_')) with
    | some q => some (.finite (if signed.1 then -q else q))
    | none => none
  else none

/-! ### harvest_data -/

/-- One ranked process entry of a `Snapshot` (all fields `None` in a
padding slot). -/
structure ProcessSample where
  name : Option String
  cpu_pct : Option PyFloat
  mem_pct : Option PyFloat
deriving DecidableEq, Repr

/-- The all-absent padding slot appended by `harvest_data`. -/
def emptySample : ProcessSample := ⟨none, none, none⟩

/-- One line of the `top` output: lines splitting into fewer than 9
whitespace tokens are discarded; otherwise `cpu_pct` is `parts[7]` with
`'%'` stripped from both ends and parsed as a float (`0.0` on parse
failure), `mem_pct` likewise from `parts[5]`, and the name is
`" ".join(parts[8:])`. -/
def parseTopLine (line : String) : Option ProcessSample :=
  let parts := pySplitList line.toList
  if parts.length ≥ 9 then
    some
      { name := some (joinSpace (parts.drop 8))
        cpu_pct := some (((pyFloatOfString
            (pyStripChars (String.mk (parts.getD 7 [])) ['%'])).getD (.finite 0)))
        mem_pct := some (((pyFloatOfString
            (pyStripChars (String.mk (parts.getD 5 [])) ['%'])).getD (.finite 0))) }
  else none

/-- The qualifying process rows of the raw `top` output, in input order
(`None` and the empty string are falsy, yielding no rows). -/
def qualifyingSamples (top_raw : Option String) : List ProcessSample :=
  match top_raw with
  | none => []
  | some s => if s = "" then [] else (pySplitLines s).filterMap parseTopLine

/-- The `top_processes` field: the qualifying rows padded with empty slots to at
least 10 entries, then truncated to exactly 10. -/
def harvestTop (top_raw : Option String) : List ProcessSample :=
  let base := qualifyingSamples top_raw
  (base ++ List.replicate (10 - base.length) emptySample).take 10

/-- The `cpu_load` parsing: `float(loadavg_raw.split()[0])`, with the
`IndexError` / `ValueError` handler producing `None`; a `None` or empty
raw string is falsy and also yields `None`. -/
def parseCpuLoad (raw : Option String) : Option PyFloat :=
  match raw with
  | none => none
  | some s =>
    if s = "" then none
    else
      match pySplit s with
      | [] => none
      | t :: _ => pyFloatOfString t

/-- The `process_count` parsing: `int(ps_raw.strip())`, with the `ValueError`
handler producing `None`; a `None` or empty raw string is falsy and also
yields `None`. -/
def parseProcessCount (raw : Option String) : Option Int :=
  match raw with
  | none => none
  | some s => if s = "" then none else pyIntOfString (pyStrip s)

/-- One cycle's fully parsed metrics. -/
structure Snapshot where
  timestamp : String
  cpu_load : Option PyFloat
  process_count : Option Int
  top_processes : List ProcessSample
deriving DecidableEq, Repr

/-- Model of `harvest_data`, with the three raw command outputs (`None` models a
command timeout/error) and the wall-clock timestamp as inputs. -/
def harvest_data (ts : String) (loadavg_raw ps_raw top_raw : Option String) : Snapshot :=
  { timestamp := ts
    cpu_load := parseCpuLoad loadavg_raw
    process_count := parseProcessCount ps_raw
    top_processes := harvestTop top_raw }

/-! ### Helper lemmas on the string primitives -/

/-- Spec-side joining of string tokens with single spaces, as in the
claims' "space-joined concatenation". -/
def joinTokens : List String → String
  | [] => ""
  | [t] => t
  | t :: ts => t ++ " " ++ joinTokens ts

/-! ### The workbook model (openpyxl operations used by the source) -/

/-- An openpyxl cell value as this program uses it: a string, a float, an
integer, or `None`. -/
inductive Cell where
  | str (s : String)
  | num (v : PyFloat)
  | int (n : Int)
  | empty
deriving DecidableEq, Repr

/-- A chart as far as this program's observable output goes: its title
and the final labels of its data series, in order. -/
structure Chart where
  title : String
  seriesLabels : List String
deriving DecidableEq, Repr

/-- A worksheet: its cell rows plus the charts anchored on it. -/
structure Sheet where
  rows : List (List Cell)
  charts : List Chart
deriving DecidableEq, Repr

/-- A workbook: its sheets in order, keyed by name. -/
structure Workbook where
  sheets : List (String × Sheet)
deriving DecidableEq, Repr

/-- Find the sheet with a given name (first match, as names are unique
in openpyxl). -/
def lookupSheet : List (String × Sheet) → String → Option Sheet
  | [], _ => none
  | (k, sh) :: rest, n => if k = n then some sh else lookupSheet rest n

/-- Apply `f` to every sheet named `n`, in place. -/
def setSheetList : List (String × Sheet) → String → (Sheet → Sheet) → List (String × Sheet)
  | [], _, _ => []
  | (k, sh) :: rest, n, f =>
    if k = n then (k, f sh) :: setSheetList rest n f
    else (k, sh) :: setSheetList rest n f

/-- Drop every sheet named `n`, preserving the order of the rest. -/
def removeSheetList : List (String × Sheet) → String → List (String × Sheet)
  | [], _ => []
  | (k, sh) :: rest, n =>
    if k = n then removeSheetList rest n else (k, sh) :: removeSheetList rest n

/-- Membership test of `wb.sheetnames`. -/
def hasSheet (wb : Workbook) (n : String) : Bool :=
  (lookupSheet wb.sheets n).isSome

/-- Sheet lookup `wb[n]` (total: an absent name yields an empty sheet,
which the source never reads after a presence check). -/
def getSheet (wb : Workbook) (n : String) : Sheet :=
  (lookupSheet wb.sheets n).getD ⟨[], []⟩

/-- Apply `f` to the sheet named `n` (in place, order preserved). -/
def setSheet (wb : Workbook) (n : String) (f : Sheet → Sheet) : Workbook :=
  ⟨setSheetList wb.sheets n f⟩

/-- Model of `wb.create_sheet(n)`: a fresh empty sheet appended at the end. -/
def createSheet (wb : Workbook) (n : String) : Workbook :=
  ⟨wb.sheets ++ [(n, ⟨[], []⟩)]⟩

/-- Model of `wb.remove(wb[n])`. -/
def removeSheet (wb : Workbook) (n : String) : Workbook :=
  ⟨removeSheetList wb.sheets n⟩

/-- Model of `ws.append(row)` on the sheet named `n`. -/
def appendRow (wb : Workbook) (n : String) (r : List Cell) : Workbook :=
  setSheet wb n (fun sh => ⟨sh.rows ++ [r], sh.charts⟩)

/-- Model of `ws.add_chart(c, anchor)` on the sheet named `n` (anchors
are presentation only and not modelled). -/
def addChart (wb : Workbook) (n : String) (c : Chart) : Workbook :=
  setSheet wb n (fun sh => ⟨sh.rows, sh.charts ++ [c]⟩)

/-- Model of `ws.max_row`: the number of populated rows, but at least 1
(openpyxl reports 1 for an empty sheet). -/
def maxRow (sh : Sheet) : Nat :=
  max sh.rows.length 1

/-- Model of `ws.cell(row=r, column=c).value`, 1-indexed; out-of-range
reads give `None`. -/
def getCell (sh : Sheet) (r c : Nat) : Cell :=
  (sh.rows.getD (r - 1) []).getD (c - 1) Cell.empty

/-- The Logs sheet header (`logs_headers`). -/
def logsHeaders : List Cell :=
  [.str "Timestamp", .str "CPU Load (1-min)", .str "Process Count"]

/-- One rank slot's three header cells of the Top Processes sheet. -/
def tpHeaderTriple (i : Nat) : List Cell :=
  [.str ("#" ++ toString (i + 1) ++ " Name"),
   .str ("#" ++ toString (i + 1) ++ " CPU%"),
   .str ("#" ++ toString (i + 1) ++ " MEM%")]

/-- The Top Processes sheet header (`tp_headers`, 31 columns). -/
def tpHeaders : List Cell :=
  .str "Timestamp" :: (List.range 10).flatMap tpHeaderTriple

/-- An optional float as a cell (`None` appends an empty cell). -/
def optFloatCell : Option PyFloat → Cell
  | none => .empty
  | some v => .num v

/-- An optional integer as a cell. -/
def optIntCell : Option Int → Cell
  | none => .empty
  | some n => .int n

/-- An optional string as a cell. -/
def optStrCell : Option String → Cell
  | none => .empty
  | some s => .str s

/-- The data row appended to the Logs sheet for one snapshot. -/
def logsRowOf (d : Snapshot) : List Cell :=
  [.str d.timestamp, optFloatCell d.cpu_load, optIntCell d.process_count]

/-- The three cells one process sample contributes to its Top Processes
row. -/
def tpTriple (p : ProcessSample) : List Cell :=
  [optStrCell p.name, optFloatCell p.cpu_pct, optFloatCell p.mem_pct]

/-- The data row appended to the Top Processes sheet for one snapshot. -/
def tpRowOf (d : Snapshot) : List Cell :=
  .str d.timestamp :: d.top_processes.flatMap tpTriple

/-- Model of `_ensure_sheet`: create the sheet with its header row if the
name is absent, otherwise return the workbook unchanged. -/
def ensure_sheet (wb : Workbook) (n : String) (headers : List Cell) : Workbook :=
  if hasSheet wb n then wb else appendRow (createSheet wb n) n headers

/-- The fresh workbook made when the file does not exist: one sheet,
retitled `Logs`, with its header row appended. -/
def newWorkbook : Workbook :=
  ⟨[("Logs", ⟨[logsHeaders], []⟩)]⟩

/-- Result of `update_excel`: the value the function returns (`None` when
a lock was hit) and the state of the file afterwards (`none` = no file). -/
structure ExcelResult where
  ret : Option Workbook
  disk : Option Workbook
deriving DecidableEq, Repr

/-- The body of `update_excel` once a workbook is open: ensure and append
to `Logs` and `Top Processes`, then save unless the file is locked. -/
def updateExcelBody (wb0 : Workbook) (disk : Option Workbook) (lockedSave : Bool)
    (d : Snapshot) : ExcelResult :=
  let wb1 := appendRow (ensure_sheet wb0 "Logs" logsHeaders) "Logs" (logsRowOf d)
  let wb2 := appendRow (ensure_sheet wb1 "Top Processes" tpHeaders) "Top Processes" (tpRowOf d)
  if lockedSave then ⟨none, disk⟩ else ⟨some wb2, some wb2⟩

/-- Model of `update_excel`: load the file (or create a fresh workbook),
append one row to each table, save.  `lockedLoad` / `lockedSave` model a
`PermissionError` raised by `load_workbook` / `wb.save` while an external
viewer holds the file. -/
def update_excel (disk : Option Workbook) (lockedLoad lockedSave : Bool)
    (d : Snapshot) : ExcelResult :=
  match disk with
  | some wb0 =>
    if lockedLoad then ⟨none, disk⟩ else updateExcelBody wb0 disk lockedSave d
  | none => updateExcelBody newWorkbook disk lockedSave d

/-! ### update_dashboard -/

/-- Python truthiness of a cell value (`None`, `""`, `0` and `0.0` are
falsy). -/
def cellTruthy : Cell → Bool
  | .str s => s ≠ ""
  | .num v => v ≠ .finite 0
  | .int n => n ≠ 0
  | .empty => false

/-- The series label derived for rank slot `i` (0-based) from the latest
row's raw name cell: `#<i+1>` when the cell is falsy; otherwise the first
whitespace token's basename with all wrapping `{}`/`[]` characters
stripped.  `none` models an uncaught exception (`IndexError` on a
whitespace-only name, `AttributeError` on a non-string cell). -/
def cellLabel (c : Cell) (i : Nat) : Option String :=
  if cellTruthy c then
    match c with
    | .str s =>
      match pySplit s with
      | [] => none
      | t :: _ => some (pyStripChars (pyBasename t) ['{', '}', '[', ']'])
    | _ => none
  else some ("#" ++ toString (i + 1))

/-- The same label computation on the raw optional name field. -/
def procLabel (raw : Option String) (i : Nat) : Option String :=
  cellLabel (optStrCell raw) i

/-- The ten series labels of the per-process charts, from the latest Top
Processes row; `none` propagates an uncaught exception. -/
def computeLabels (tp : Sheet) : List Nat → Option (List String)
  | [] => some []
  | i :: is =>
    match cellLabel (getCell tp (maxRow tp) (2 + i * 3)) i, computeLabels tp is with
    | some l, some ls => some (l :: ls)
    | _, _ => none

/-- The displayed text of a header cell, used as the series title that
`titles_from_data` picks up for the two aggregate charts. -/
def cellText : Cell → String
  | .str s => s
  | _ => ""

/-- Second half of `update_dashboard`, from the `Top Processes` presence
check on (charts 3 and 4, then the save): `wbC` carries the two aggregate
charts already anchored on the fresh Dashboard sheet. -/
def perProcessCharts (wbC : Workbook) (lockedSave : Bool) (disk : Option Workbook) :
    Option (Workbook × Option Workbook) :=
  if ¬ hasSheet wbC "Top Processes" then some (wbC, disk)
  else
    let tp := getSheet wbC "Top Processes"
    if maxRow tp < 2 then some (wbC, disk)
    else
      match computeLabels tp (List.range 10) with
      | none => none
      | some labels =>
        let chart3 : Chart := ⟨"Top 10 Processes — CPU%", labels⟩
        let chart4 : Chart := ⟨"Top 10 Processes — MEM%", labels⟩
        let wbD := addChart (addChart wbC "Dashboard" chart3) "Dashboard" chart4
        if lockedSave then some (wbD, disk) else some (wbD, some wbD)

/-- Model of `update_dashboard`.  Returns `none` for an uncaught
exception; otherwise the pair of the workbook after the call and the file
state after it (the file changes only if the final `workbook.save` runs
and the file is not locked). -/
def update_dashboard (wb : Workbook) (lockedSave : Bool) (disk : Option Workbook) :
    Option (Workbook × Option Workbook) :=
  if ¬ hasSheet wb "Logs" then some (wb, disk)
  else
    let logs := getSheet wb "Logs"
    if maxRow logs < 2 then some (wb, disk)
    else
      let wbA := if hasSheet wb "Dashboard" then removeSheet wb "Dashboard" else wb
      let wbB := createSheet wbA "Dashboard"
      let chart1 : Chart := ⟨"CPU Load (1-min avg)", [cellText (getCell logs 1 2)]⟩
      let chart2 : Chart := ⟨"Active Process Count", [cellText (getCell logs 1 3)]⟩
      let wbC := addChart (addChart wbB "Dashboard" chart1) "Dashboard" chart2
      perProcessCharts wbC lockedSave disk

/-! ### The per-cycle orchestration of main -/

/-- One persistence phase of the main loop: `update_excel`, then
`update_dashboard` only when `update_excel` returned a workbook.  The
result is the file state after the cycle; `none` at the outer level
models a crash by an uncaught exception. -/
def cycleStep (disk : Option Workbook) (lockedLoad lockedSave lockedDashSave : Bool)
    (d : Snapshot) : Option (Option Workbook) :=
  let r := update_excel disk lockedLoad lockedSave d
  match r.ret with
  | none => some r.disk
  | some wb =>
    match update_dashboard wb lockedDashSave r.disk with
    | none => none
    | some pr => some pr.2

/-- One full cycle input: timestamp plus the three raw command outputs. -/
structure CycleInput where
  ts : String
  loadavg_raw : Option String
  ps_raw : Option String
  top_raw : Option String

/-- Run the loop from no file, with no external locks, harvesting each
cycle's raw inputs; process restarts between cycles are invisible here
because the only state carried across cycles is the file itself. -/
def runCycles (inputs : List CycleInput) : Option (Option Workbook) :=
  inputs.foldlM
    (fun disk inp =>
      cycleStep disk false false false
        (harvest_data inp.ts inp.loadavg_raw inp.ps_raw inp.top_raw))
    (none : Option Workbook)

/-- A name field for which the label computation cannot raise: absent, or
empty, or containing a token. -/
def nameOk (o : Option String) : Prop :=
  ∀ s, o = some s → s = "" ∨ pySplit s ≠ []

/-- Snapshots whose persisted rows never crash the dashboard labeler. -/
def snapOk (d : Snapshot) : Prop :=
  d.top_processes.length = 10 ∧ ∀ p ∈ d.top_processes, nameOk p.name

/-- The snapshot one cycle's raw inputs harvest into. -/
def harvestOf (inp : CycleInput) : Snapshot :=
  harvest_data inp.ts inp.loadavg_raw inp.ps_raw inp.top_raw

/-- The file state after the cycles that produced `snaps`: no file before
the first cycle; afterwards the two append-only tables hold exactly the
header plus one row per snapshot, plus a rebuilt Dashboard sheet. -/
def diskAfter (snaps : List Snapshot) (disk : Option Workbook) : Prop :=
  match snaps with
  | [] => disk = none
  | _ :: _ => ∃ dash : Sheet,
      disk = some ⟨[("Logs", ⟨logsHeaders :: snaps.map logsRowOf, []⟩),
                    ("Top Processes", ⟨tpHeaders :: snaps.map tpRowOf, []⟩),
                    ("Dashboard", dash)]⟩

/-- A concrete workbook with 2 populated rows in each table, for the C1
witness. -/
def wbEx : Workbook :=
  ⟨[("Logs", ⟨[logsHeaders, [.str "t", .empty, .empty]], []⟩),
    ("Top Processes", ⟨[tpHeaders, [.str "t"]], []⟩)]⟩

/-- Snapshots of two concrete cycles for the C6 counterexample. -/
def d1ex : Snapshot := harvest_data "t1" (some "0.15 0.22 0.10 2/80 1234") (some "87") none

/-- The second concrete cycle's snapshot. -/
def d2ex : Snapshot := harvest_data "t2" (some "0.20 0.22 0.10 2/80 1234") (some "88") none

/-- Two concrete cycles for the C2 witness. -/
def inputsEx : List CycleInput :=
  [⟨"t1", some "0.15 0.22 0.10 2/80 1234", some "87",
    some "1210 1 root R 1104 3.2% 0 12.5% dropbear -R"⟩,
   ⟨"t2", some "0.20 0.22 0.10 2/80 1234", some "88", none⟩]

/-! ### Helper lemmas -/

lemma joinTokens_map_mk : ∀ ws : List (List Char), joinTokens (ws.map String.mk) = joinSpace ws
  | [] => rfl
  | [_] => rfl
  | w :: w2 :: ws => by
    have ih := joinTokens_map_mk (w2 :: ws)
    simp only [List.map_cons, joinTokens, joinSpace, joinSpaceList] at ih ⊢
    rw [ih]
    show String.mk ((w ++ [' ']) ++ joinSpaceList (w2 :: ws)) =
      String.mk (w ++ ' ' :: joinSpaceList (w2 :: ws))
    rw [List.append_assoc]
    rfl

lemma dropWhile_of_forall_false {p : Char → Bool} :
    ∀ {l : List Char}, (∀ c ∈ l, p c = false) → l.dropWhile p = l
  | [], _ => rfl
  | c :: cs, h => by
    rw [List.dropWhile_cons, h c (by simp)]
    simp

lemma dropEnd_of_forall_false {p : Char → Bool} {l : List Char}
    (h : ∀ c ∈ l, p c = false) : dropEnd p l = l := by
  unfold dropEnd
  rw [dropWhile_of_forall_false fun c hc => h c (List.mem_reverse.mp hc)]
  exact l.reverse_reverse

lemma dropWhile_replicate_append {p : Char → Bool} {a : Char} (ha : p a = true) :
    ∀ (n : Nat) (l : List Char), (List.replicate n a ++ l).dropWhile p = l.dropWhile p
  | 0, l => rfl
  | n + 1, l => by
    rw [List.replicate_succ, List.cons_append, List.dropWhile_cons, ha]
    exact dropWhile_replicate_append ha n l

/-- Stripping a character from both ends removes arbitrarily many wrapping
copies of it, down to a core containing none. -/
lemma pyStripCharsList_wrap {set : List Char} {a : Char} (ha : set.contains a = true)
    (pre post : Nat) (core : List Char) (hc : ∀ c ∈ core, set.contains c = false) :
    pyStripCharsList set (List.replicate pre a ++ core ++ List.replicate post a) = core := by
  unfold pyStripCharsList
  rw [List.append_assoc, dropWhile_replicate_append ha]
  cases core with
  | nil =>
    rw [List.nil_append, show List.replicate post a = List.replicate post a ++ [] by simp,
      dropWhile_replicate_append ha]
    rfl
  | cons c cs =>
    rw [List.dropWhile_append, dropWhile_of_forall_false hc]
    simp only [List.isEmpty_cons, if_neg Bool.false_ne_true]
    unfold dropEnd
    rw [List.reverse_append, List.reverse_replicate, dropWhile_replicate_append ha,
      dropWhile_of_forall_false fun x hx => hc x (List.mem_reverse.mp hx),
      List.reverse_reverse]

lemma isPySpace_false_of_digit {c : Char} (h : c.isDigit = true) : isPySpace c = false := by
  have hne : ¬(c = ' ' ∨ c = '\t' ∨ c = '\n' ∨ c = '\r' ∨ c = '\x0b' ∨ c = '\x0c') := by
    rintro (rfl | rfl | rfl | rfl | rfl | rfl) <;> exact absurd h (by decide)
  push_neg at hne
  obtain ⟨h1, h2, h3, h4, h5, h6⟩ := hne
  simp [isPySpace, h1, h2, h3, h4, h5, h6]

lemma digit_ne_punct {c : Char} (h : c.isDigit = true) : c ≠ '+' ∧ c ≠ '-' ∧ c ≠ '_' := by
  refine ⟨?_, ?_, ?_⟩ <;> (rintro rfl; exact absurd h (by decide))

lemma underscoresOKAux_of_digits :
    ∀ (l : List Char) (prev : Char), (∀ c ∈ l, c.isDigit = true) →
      underscoresOKAux prev l = true
  | [], _, _ => rfl
  | [c], _, h => by
    have hc := h c (by simp)
    show (if c = '_' then false else underscoresOKAux c []) = true
    rw [if_neg (digit_ne_punct hc).2.2]
    rfl
  | c :: nx :: rest2, prev, h => by
    have hc := h c (by simp)
    show (if c = '_' then prev.isDigit && nx.isDigit && underscoresOKAux nx rest2
          else underscoresOKAux c (nx :: rest2)) = true
    rw [if_neg (digit_ne_punct hc).2.2]
    exact underscoresOKAux_of_digits (nx :: rest2) c fun x hx => h x (by simp [hx])

lemma pyStripList_of_digits {l : List Char} (h : ∀ c ∈ l, c.isDigit = true) :
    pyStripList l = l := by
  unfold pyStripList
  rw [dropWhile_of_forall_false fun c hc => isPySpace_false_of_digit (h c hc)]
  exact dropEnd_of_forall_false fun c hc => isPySpace_false_of_digit (h c hc)

/-- Python `int(...)` on a nonempty all-digit string yields exactly the
denoted natural number, and with a leading minus sign its negation. -/
lemma pyIntOfString_digits {ds : List Char} (hne : ds ≠ [])
    (hd : ∀ c ∈ ds, c.isDigit = true) :
    pyIntOfString (String.mk ds) = some (natOfDigits ds) ∧
      pyIntOfString (String.mk ('-' :: ds)) = some (-(natOfDigits ds : Int)) := by
  obtain ⟨d, rest, rfl⟩ : ∃ d rest, ds = d :: rest := by
    cases ds with
    | nil => exact absurd rfl hne
    | cons d rest => exact ⟨d, rest, rfl⟩
  have hd0 := hd d (by simp)
  have hsplit : splitSign (d :: rest) = (false, d :: rest) := by
    rw [splitSign, if_neg (digit_ne_punct hd0).1, if_neg (digit_ne_punct hd0).2.1]
  have hall : (d :: rest).all (fun c => c.isDigit || c == '_') = true := by
    rw [List.all_eq_true]
    intro c hc
    simp [hd c hc]
  have hok : underscoresOK (d :: rest) = true := by
    rw [underscoresOK, if_neg (digit_ne_punct hd0).2.2]
    exact underscoresOKAux_of_digits rest d fun x hx => hd x (by simp [hx])
  have hfilter : (d :: rest).filter (fun c => c != '_') = d :: rest := by
    rw [List.filter_eq_self]
    intro c hc
    simp [(digit_ne_punct (hd c hc)).2.2]
  constructor
  · unfold pyIntOfString
    rw [show (String.mk (d :: rest)).toList = d :: rest from rfl,
      pyStripList_of_digits hd, hsplit]
    simp only [hall, hok, hfilter, List.isEmpty_cons, Bool.not_false, Bool.true_and,
      Bool.and_self, if_pos]
    rfl
  · unfold pyIntOfString
    have hdm : ∀ c ∈ '-' :: d :: rest, isPySpace c = false := by
      intro c hc
      rcases List.mem_cons.mp hc with rfl | hc
      · decide
      · exact isPySpace_false_of_digit (hd c hc)
    have hstrip : pyStripList ('-' :: d :: rest) = '-' :: d :: rest := by
      unfold pyStripList
      rw [dropWhile_of_forall_false hdm]
      exact dropEnd_of_forall_false hdm
    rw [show (String.mk ('-' :: d :: rest)).toList = '-' :: d :: rest from rfl, hstrip,
      show splitSign ('-' :: d :: rest) = (true, d :: rest) from rfl]
    simp only [hall, hok, hfilter, List.isEmpty_cons, Bool.not_false, Bool.true_and,
      Bool.and_self, if_pos]

/-! ### Claim theorems: the Metric Extractor -/

/-- C3.  For every top-processes input (absent, empty, or any text), the
resulting `top_processes` sequence has length exactly 10; it is the
qualifying lines in input order truncated to the first 10, with empty
slots (all three fields absent) appended at the tail as padding. -/
theorem c3_top_processes_exactly_ten (top_raw : Option String) :
    (harvestTop top_raw).length = 10 ∧
    harvestTop top_raw =
      (qualifyingSamples top_raw).take 10 ++
        List.replicate (10 - (qualifyingSamples top_raw).length) emptySample ∧
    emptySample.name = none ∧ emptySample.cpu_pct = none ∧ emptySample.mem_pct = none := by
  refine ⟨?_, ?_, rfl, rfl, rfl⟩
  · simp only [harvestTop, List.length_take, List.length_append, List.length_replicate]
    omega
  · simp only [harvestTop]
    rw [List.take_append_eq_append_take, List.take_replicate, min_self]

/-- C4.  A top-processes line splitting into fewer than 9 whitespace
tokens is discarded; with at least 9 tokens it yields a sample whose
`cpu_pct` is the token at 1-indexed position 8 (`getD 7`) with `'%'`
stripped and float-parsed (default `0.0` on parse failure), whose
`mem_pct` is likewise the token at position 6 (`getD 5`), and whose name
is the space-joined concatenation of the tokens from position 9 onward. -/
theorem c4_top_line_parsing (line : String) :
    ((pySplit line).length < 9 → parseTopLine line = none) ∧
    (9 ≤ (pySplit line).length →
      parseTopLine line = some
        { name := some (joinTokens ((pySplit line).drop 8))
          cpu_pct := some ((pyFloatOfString
              (pyStripChars ((pySplit line).getD 7 "") ['%'])).getD (.finite 0))
          mem_pct := some ((pyFloatOfString
              (pyStripChars ((pySplit line).getD 5 "") ['%'])).getD (.finite 0)) }) := by
  have hlen : (pySplit line).length = (pySplitList line.toList).length := by
    simp [pySplit]
  have hgetD : ∀ i : Nat, (pySplit line).getD i "" =
      String.mk ((pySplitList line.toList).getD i []) := by
    intro i
    exact List.getD_map (l := pySplitList line.toList) (d := []) String.mk
  have hdrop : (pySplit line).drop 8 = ((pySplitList line.toList).drop 8).map String.mk := by
    simp [pySplit, List.map_drop]
  constructor
  · intro h
    simp only [parseTopLine]
    rw [if_neg (show ¬(pySplitList line.toList).length ≥ 9 by omega)]
  · intro h
    simp only [parseTopLine]
    rw [if_pos (show (pySplitList line.toList).length ≥ 9 by omega),
      hgetD 7, hgetD 5, hdrop, joinTokens_map_mk]

/-- C7, counterexample.  The claim asserts that whenever `process_count`
is present its value is non-negative; on the input line `"-3"` the code
parses and stores the negative integer `-3`. -/
theorem c7_counterexample_negative_count :
    parseProcessCount (some "-3") = some (-3) ∧ (-3 : Int) < 0 := by
  exact ⟨by decide, by decide⟩

/-- C7, amended.  The process-count line is parsed as an integer after
trimming, absent on empty or non-numeric input; when present the value is
exactly the integer denoted by the trimmed line, which is the denoted
natural number for digit strings and its negation under a leading minus
sign — non-negativity is not enforced. -/
theorem c7_process_count_parsing (raw : Option String) :
    parseProcessCount raw =
      raw.bind (fun s => if s = "" then none else pyIntOfString (pyStrip s)) ∧
    (∀ ds : List Char, ds ≠ [] → (∀ c ∈ ds, c.isDigit = true) →
      pyIntOfString (String.mk ds) = some (natOfDigits ds) ∧
      pyIntOfString (String.mk ('-' :: ds)) = some (-(natOfDigits ds : Int))) := by
  refine ⟨?_, fun ds hne hd => pyIntOfString_digits hne hd⟩
  cases raw <;> rfl

/-- Witness for C7's amended theorem at Scenario B's input `"87"`. -/
theorem c7_process_count_parsing_witness :
    parseProcessCount (some "87") = some 87 ∧
    pyIntOfString (String.mk ['8', '7']) = some (natOfDigits ['8', '7']) := by
  constructor
  · rw [(c7_process_count_parsing (some "87")).1]
    decide
  · exact ((c7_process_count_parsing (some "87")).2 ['8', '7'] (by decide) (by decide)).1

/-- C9.  The `cpu_load` field equals the first whitespace-delimited token
of the load-average line parsed as a float when that parse succeeds, and
is absent when the raw line is missing, empty, has no token, or has a
non-numeric first token; the embedding is total, so no input raises. -/
theorem c9_cpu_load_first_token (raw : Option String) :
    parseCpuLoad raw = raw.bind (fun s => ((pySplit s).head?).bind pyFloatOfString) := by
  cases raw with
  | none => rfl
  | some s =>
    show parseCpuLoad (some s) = ((pySplit s).head?).bind pyFloatOfString
    by_cases h : s = ""
    · subst h; rfl
    · simp only [parseCpuLoad]
      rw [if_neg h]
      cases hs : pySplit s with
      | nil => rfl
      | cons t ts => rfl

/-- C10.  For a qualifying line whose CPU-percent token is a core wrapped
in any number of `'%'` characters on either side, the extractor strips
all leading and trailing `'%'` and float-parses the remaining core; the
`0.0` default applies exactly when the stripped core is non-numeric. -/
theorem c10_percent_wrap_stripping (line : String) (pre post : Nat) (core : String)
    (hlen : 9 ≤ (pySplit line).length)
    (htok : (pySplit line).getD 7 "" =
      String.mk (List.replicate pre '%' ++ core.toList ++ List.replicate post '%'))
    (hcore : ∀ c ∈ core.toList, c ≠ '%') :
    pyStripChars ((pySplit line).getD 7 "") ['%'] = core ∧
    (parseTopLine line).map ProcessSample.cpu_pct =
      some (some ((pyFloatOfString core).getD (.finite 0))) ∧
    (pyFloatOfString core = none →
      (parseTopLine line).map ProcessSample.cpu_pct = some (some (.finite 0))) := by
  have hset : ∀ c, c ≠ '%' → (['%'] : List Char).contains c = false := by
    intro c h
    simp [h]
  have hstrip : pyStripChars ((pySplit line).getD 7 "") ['%'] = core := by
    rw [htok]
    unfold pyStripChars
    rw [show (String.mk (List.replicate pre '%' ++ core.toList ++
        List.replicate post '%')).toList =
      List.replicate pre '%' ++ core.toList ++ List.replicate post '%' from rfl]
    rw [pyStripCharsList_wrap (by decide) pre post core.toList
      (fun c hc => hset c (hcore c hc))]
    rfl
  have hlen2 : (pySplitList line.toList).length ≥ 9 := by
    have hm : (pySplit line).length = (pySplitList line.toList).length := by
      simp [pySplit]
    omega
  have hgetD : (pySplit line).getD 7 "" = String.mk ((pySplitList line.toList).getD 7 []) :=
    List.getD_map (l := pySplitList line.toList) (d := []) String.mk
  have hcpu : (parseTopLine line).map ProcessSample.cpu_pct =
      some (some ((pyFloatOfString core).getD (.finite 0))) := by
    simp only [parseTopLine]
    rw [if_pos hlen2]
    rw [← hgetD, hstrip]
    rfl
  refine ⟨hstrip, hcpu, fun hnone => ?_⟩
  rw [hcpu, hnone]
  rfl

/-- Witness for C10 at a concrete 9-token line whose CPU-percent token is
`"%12.5"` (a leading `'%'`, which plain trailing-strip would miss). -/
theorem c10_percent_wrap_stripping_witness :
    pyStripChars "%12.5" ['%'] = "12.5" ∧
    (parseTopLine "1 2 3 4 5 %%3.2%% 7 %12.5 cmd").map ProcessSample.cpu_pct =
      some (some (.finite (mkRat 25 2))) := by
  have h := c10_percent_wrap_stripping "1 2 3 4 5 %%3.2%% 7 %12.5 cmd" 1 0 "12.5"
    (by decide) (by decide) (by decide)
  constructor
  · have h1 := h.1
    rw [show (pySplit "1 2 3 4 5 %%3.2%% 7 %12.5 cmd").getD 7 "" = "%12.5" from by decide]
      at h1
    exact h1
  · rw [h.2.1]
    decide

/-- Witness for C4 at Scenario C's 10-token line and a 5-token noise
line (Scenario D). -/
theorem c4_top_line_parsing_witness :
    parseTopLine "1210 1 root R 1104 3.2% 0 12.5% dropbear -R" =
      some ⟨some "dropbear -R", some (.finite (mkRat 25 2)), some (.finite (mkRat 16 5))⟩ ∧
    parseTopLine "Mem: 96368K used 28916K free" = none := by
  constructor
  · rw [(c4_top_line_parsing "1210 1 root R 1104 3.2% 0 12.5% dropbear -R").2 (by decide)]
    decide
  · exact (c4_top_line_parsing "Mem: 96368K used 28916K free").1 (by decide)

/-! ### Tokens produced by `str.split()` are nonempty and whitespace-free -/

lemma pySplitAux_words : ∀ (cs acc : List Char), (∀ c ∈ acc, isPySpace c = false) →
    ∀ w ∈ pySplitAux cs acc, w ≠ [] ∧ ∀ c ∈ w, isPySpace c = false
  | [], acc, hacc => by
    intro w hw
    simp only [pySplitAux] at hw
    by_cases h : acc.isEmpty
    · simp [h] at hw
    · rw [if_neg h] at hw
      simp only [List.mem_singleton] at hw
      subst hw
      refine ⟨fun hrev => ?_, fun c hc => hacc c (List.mem_reverse.mp hc)⟩
      rw [List.reverse_eq_nil_iff] at hrev
      subst hrev
      exact h rfl
  | c :: cs, acc, hacc => by
    intro w hw
    simp only [pySplitAux] at hw
    by_cases hsp : isPySpace c
    · rw [if_pos hsp] at hw
      by_cases h : acc.isEmpty
      · rw [if_pos h] at hw
        exact pySplitAux_words cs [] (by simp) w hw
      · rw [if_neg h] at hw
        rcases List.mem_cons.mp hw with rfl | hw2
        · refine ⟨fun hrev => ?_, fun x hx => hacc x (List.mem_reverse.mp hx)⟩
          rw [List.reverse_eq_nil_iff] at hrev
          subst hrev
          exact h rfl
        · exact pySplitAux_words cs [] (by simp) w hw2
    · rw [if_neg hsp] at hw
      refine pySplitAux_words cs (c :: acc) ?_ w hw
      intro x hx
      rcases List.mem_cons.mp hx with rfl | hx2
      · exact Bool.eq_false_iff.mpr hsp
      · exact hacc x hx2

lemma pySplitList_words {cs : List Char} {w : List Char} (hw : w ∈ pySplitList cs) :
    w ≠ [] ∧ ∀ c ∈ w, isPySpace c = false :=
  pySplitAux_words cs [] (by simp) w hw

lemma pySplitAux_eq_nil : ∀ (cs acc : List Char), pySplitAux cs acc = [] →
    acc = [] ∧ ∀ c ∈ cs, isPySpace c = true
  | [], acc, h => by
    simp only [pySplitAux] at h
    by_cases ha : acc.isEmpty
    · exact ⟨List.isEmpty_iff.mp ha, by simp⟩
    · rw [if_neg ha] at h
      exact absurd h (by simp)
  | c :: cs, acc, h => by
    simp only [pySplitAux] at h
    by_cases hsp : isPySpace c
    · rw [if_pos hsp] at h
      by_cases ha : acc.isEmpty
      · rw [if_pos ha] at h
        obtain ⟨-, hall⟩ := pySplitAux_eq_nil cs [] h
        refine ⟨List.isEmpty_iff.mp ha, ?_⟩
        intro x hx
        rcases List.mem_cons.mp hx with rfl | hx2
        · exact hsp
        · exact hall x hx2
      · rw [if_neg ha] at h
        exact absurd h (by simp)
    · rw [if_neg hsp] at h
      obtain ⟨habs, -⟩ := pySplitAux_eq_nil cs (c :: acc) h
      exact absurd habs (by simp)

/-- A string containing a non-whitespace character splits into at least
one token. -/
lemma pySplitList_ne_nil {cs : List Char} (h : ∃ c ∈ cs, isPySpace c = false) :
    pySplitList cs ≠ [] := by
  intro hnil
  obtain ⟨c, hc, hcf⟩ := h
  obtain ⟨-, hall⟩ := pySplitAux_eq_nil cs [] hnil
  rw [hall c hc] at hcf
  exact absurd hcf (by simp)

lemma joinSpaceList_head_mem {t : List Char} {ws : List (List Char)} {c : Char}
    (hc : c ∈ t) : c ∈ joinSpaceList (t :: ws) := by
  cases ws with
  | nil => exact hc
  | cons w ws2 =>
    simp only [joinSpaceList, List.mem_append]
    exact Or.inl hc

lemma parseTopLine_nameOk {line : String} {p : ProcessSample}
    (h : parseTopLine line = some p) : nameOk p.name := by
  intro s hs
  simp only [parseTopLine] at h
  by_cases hlen : (pySplitList line.toList).length ≥ 9
  · rw [if_pos hlen] at h
    have hname : p.name = some (joinSpace ((pySplitList line.toList).drop 8)) := by
      cases h
      rfl
    rw [hname] at hs
    have hs2 : s = joinSpace ((pySplitList line.toList).drop 8) := by
      cases hs
      rfl
    right
    subst hs2
    have hdrop : (pySplitList line.toList).drop 8 ≠ [] := by
      intro hd
      have h8 : (pySplitList line.toList).length - 8 = 0 := by
        rw [← List.length_drop, hd]
        rfl
      omega
    obtain ⟨t, ws, hws⟩ : ∃ t ws, (pySplitList line.toList).drop 8 = t :: ws := by
      cases hdp : (pySplitList line.toList).drop 8 with
      | nil => exact absurd hdp hdrop
      | cons t ws => exact ⟨t, ws, rfl⟩
    have htmem : t ∈ pySplitList line.toList := by
      have : t ∈ (pySplitList line.toList).drop 8 := by
        rw [hws]
        simp
      exact List.mem_of_mem_drop this
    obtain ⟨htne, htns⟩ := pySplitList_words htmem
    obtain ⟨c, cs2, hct⟩ : ∃ c cs2, t = c :: cs2 := by
      cases ht : t with
      | nil => exact absurd ht htne
      | cons c cs2 => exact ⟨c, cs2, rfl⟩
    simp only [joinSpace, hws, pySplit]
    intro hmapnil
    rw [List.map_eq_nil_iff] at hmapnil
    refine pySplitList_ne_nil ⟨c, ?_, htns c (by rw [hct]; simp)⟩ hmapnil
    rw [show (String.mk (joinSpaceList (t :: ws))).toList = joinSpaceList (t :: ws) from rfl]
    exact joinSpaceList_head_mem (by rw [hct]; simp)
  · rw [if_neg hlen] at h
    exact absurd h (by simp)

lemma harvestTop_length (top_raw : Option String) : (harvestTop top_raw).length = 10 := by
  simp only [harvestTop, List.length_take, List.length_append, List.length_replicate]
  omega

lemma harvestTop_nameOk (top_raw : Option String) :
    ∀ p ∈ harvestTop top_raw, nameOk p.name := by
  intro p hp
  simp only [harvestTop] at hp
  rcases List.mem_append.mp (List.mem_of_mem_take hp) with hb | hr
  · cases top_raw with
    | none => simp [qualifyingSamples] at hb
    | some s =>
      simp only [qualifyingSamples] at hb
      by_cases hs : s = ""
      · rw [if_pos hs] at hb
        simp at hb
      · rw [if_neg hs] at hb
        obtain ⟨line, -, hline⟩ := List.mem_filterMap.mp hb
        exact parseTopLine_nameOk hline
  · have := List.eq_of_mem_replicate hr
    subst this
    intro s hs
    exact absurd hs (by simp [emptySample])

lemma harvest_snapOk (ts : String) (a b c : Option String) :
    snapOk (harvest_data ts a b c) :=
  ⟨harvestTop_length c, harvestTop_nameOk c⟩

/-! ### Workbook operation lemmas -/

lemma lookup_setSheetList (m n : String) (f : Sheet → Sheet) :
    ∀ l : List (String × Sheet),
      lookupSheet (setSheetList l m f) n =
        if n = m then (lookupSheet l m).map f else lookupSheet l n
  | [] => by
    by_cases h : n = m <;> simp [setSheetList, lookupSheet, h]
  | (k, sh) :: rest => by
    simp only [setSheetList]
    by_cases hkm : k = m
    · rw [if_pos hkm]
      simp only [lookupSheet]
      rw [lookup_setSheetList m n f rest]
      by_cases hnm : n = m
      · have hkn : k = n := by rw [hkm, hnm]
        rw [if_pos hkn, if_pos hnm, if_pos hkm]
        rfl
      · have hkn : ¬ k = n := fun h => hnm (by rw [← h, hkm])
        rw [if_neg hkn, if_neg hnm, if_neg hnm, if_neg hkn]
    · rw [if_neg hkm]
      simp only [lookupSheet]
      rw [lookup_setSheetList m n f rest]
      by_cases hkn : k = n
      · have hnm : ¬ n = m := fun h => hkm (by rw [hkn, h])
        rw [if_pos hkn, if_neg hnm, if_pos hkn]
      · rw [if_neg hkn]
        by_cases hnm : n = m
        · rw [if_pos hnm, if_pos hnm, if_neg hkm]
        · rw [if_neg hnm, if_neg hnm, if_neg hkn]

lemma lookup_append_single (m n : String) (sh0 : Sheet) :
    ∀ l : List (String × Sheet),
      lookupSheet (l ++ [(m, sh0)]) n =
        match lookupSheet l n with
        | some sh => some sh
        | none => if m = n then some sh0 else none
  | [] => by simp [lookupSheet]
  | (k, sh) :: rest => by
    by_cases hkn : k = n
    · simp [lookupSheet, hkn]
    · simp only [List.cons_append, lookupSheet, if_neg hkn]
      exact lookup_append_single m n sh0 rest

lemma lookup_removeSheetList (m n : String) :
    ∀ l : List (String × Sheet),
      lookupSheet (removeSheetList l m) n =
        if n = m then none else lookupSheet l n
  | [] => by by_cases h : n = m <;> simp [lookupSheet, removeSheetList, h]
  | (k, sh) :: rest => by
    simp only [removeSheetList]
    by_cases hkm : k = m
    · rw [if_pos hkm]
      rw [lookup_removeSheetList m n rest]
      by_cases hnm : n = m
      · rw [if_pos hnm, if_pos hnm]
      · have hkn : ¬ k = n := fun h => hnm (by rw [← h, hkm])
        rw [if_neg hnm, if_neg hnm]
        simp only [lookupSheet]
        rw [if_neg hkn]
    · rw [if_neg hkm]
      simp only [lookupSheet]
      rw [lookup_removeSheetList m n rest]
      by_cases hkn : k = n
      · have hnm : ¬ n = m := fun h => hkm (by rw [hkn, h])
        rw [if_pos hkn, if_neg hnm, if_pos hkn]
      · rw [if_neg hkn]
        by_cases hnm : n = m
        · rw [if_pos hnm, if_pos hnm]
        · rw [if_neg hnm, if_neg hnm, if_neg hkn]

lemma hasSheet_setSheet (wb : Workbook) (m : String) (f : Sheet → Sheet) (n : String) :
    hasSheet (setSheet wb m f) n = hasSheet wb n := by
  simp only [hasSheet, setSheet, lookup_setSheetList]
  by_cases h : n = m
  · subst h
    cases lookupSheet wb.sheets n <;> simp
  · rw [if_neg h]

lemma getSheet_setSheet_ne (wb : Workbook) (m n : String) (f : Sheet → Sheet)
    (hnm : ¬ n = m) : getSheet (setSheet wb m f) n = getSheet wb n := by
  simp only [getSheet, setSheet, lookup_setSheetList, if_neg hnm]

lemma getSheet_setSheet_self (wb : Workbook) (m : String) (f : Sheet → Sheet)
    (h : hasSheet wb m = true) : getSheet (setSheet wb m f) m = f (getSheet wb m) := by
  simp only [getSheet, setSheet, lookup_setSheetList, if_pos rfl]
  obtain ⟨sh, hsh⟩ : ∃ sh, lookupSheet wb.sheets m = some sh := by
    simp only [hasSheet] at h
    cases hl : lookupSheet wb.sheets m with
    | none => rw [hl] at h; exact absurd h (by simp)
    | some sh => exact ⟨sh, rfl⟩
  rw [hsh]
  rfl

lemma hasSheet_createSheet_self (wb : Workbook) (m : String) :
    hasSheet (createSheet wb m) m = true := by
  simp only [hasSheet, createSheet, lookup_append_single]
  cases lookupSheet wb.sheets m <;> simp

lemma hasSheet_createSheet_ne (wb : Workbook) (m n : String) (hnm : ¬ n = m) :
    hasSheet (createSheet wb m) n = hasSheet wb n := by
  have hmn : ¬ m = n := fun h => hnm h.symm
  simp only [hasSheet, createSheet, lookup_append_single]
  cases lookupSheet wb.sheets n with
  | none => simp [hmn]
  | some sh => simp

lemma getSheet_createSheet_ne (wb : Workbook) (m n : String) (hnm : ¬ n = m) :
    getSheet (createSheet wb m) n = getSheet wb n := by
  have hmn : ¬ m = n := fun h => hnm h.symm
  simp only [getSheet, createSheet, lookup_append_single]
  cases lookupSheet wb.sheets n with
  | none => simp [hmn]
  | some sh => simp

lemma getSheet_createSheet_self (wb : Workbook) (m : String) (h : hasSheet wb m = false) :
    getSheet (createSheet wb m) m = ⟨[], []⟩ := by
  simp only [hasSheet] at h
  simp only [getSheet, createSheet, lookup_append_single]
  cases hl : lookupSheet wb.sheets m with
  | none => simp
  | some sh => rw [hl] at h; exact absurd h (by simp)

lemma hasSheet_removeSheet_self (wb : Workbook) (m : String) :
    hasSheet (removeSheet wb m) m = false := by
  simp [hasSheet, removeSheet, lookup_removeSheetList]

lemma hasSheet_removeSheet_ne (wb : Workbook) (m n : String) (hnm : ¬ n = m) :
    hasSheet (removeSheet wb m) n = hasSheet wb n := by
  simp [hasSheet, removeSheet, lookup_removeSheetList, hnm]

lemma getSheet_removeSheet_ne (wb : Workbook) (m n : String) (hnm : ¬ n = m) :
    getSheet (removeSheet wb m) n = getSheet wb n := by
  simp [getSheet, removeSheet, lookup_removeSheetList, hnm]

/-! ### Claim theorems: dashboard series labels (C8) -/

lemma dropWhile_append_of_forall_true {p : Char → Bool} :
    ∀ (l1 l2 : List Char), (∀ c ∈ l1, p c = true) →
      (l1 ++ l2).dropWhile p = l2.dropWhile p
  | [], l2, _ => rfl
  | c :: cs, l2, h => by
    rw [List.cons_append, List.dropWhile_cons, h c (by simp)]
    exact dropWhile_append_of_forall_true cs l2 fun x hx => h x (by simp [hx])

/-- Stripping a character set from both ends removes the whole maximal
prefix and suffix drawn from the set, however long, down to a core whose
end characters are outside the set. -/
lemma pyStripCharsList_sandwich {set : List Char} (pre post core : List Char)
    (hp : ∀ c ∈ pre, set.contains c = true) (hq : ∀ c ∈ post, set.contains c = true)
    (hc : ∀ c ∈ core, set.contains c = false) :
    pyStripCharsList set (pre ++ core ++ post) = core := by
  unfold pyStripCharsList
  rw [List.append_assoc, dropWhile_append_of_forall_true pre (core ++ post) hp]
  cases core with
  | nil =>
    have hpost : post.dropWhile (fun c => set.contains c) = [] := by
      have h2 := dropWhile_append_of_forall_true post [] hq
      rw [List.append_nil] at h2
      exact h2
    rw [List.nil_append, hpost]
    rfl
  | cons c cs =>
    rw [List.dropWhile_append, dropWhile_of_forall_false hc]
    simp only [List.isEmpty_cons, if_neg Bool.false_ne_true]
    unfold dropEnd
    rw [List.reverse_append,
      dropWhile_append_of_forall_true post.reverse (c :: cs).reverse
        (fun x hx => hq x (List.mem_reverse.mp hx)),
      dropWhile_of_forall_false (fun x hx => hc x (List.mem_reverse.mp hx)),
      List.reverse_reverse]

/-- C8, counterexample.  The claim says exactly one layer of wrapping
brackets is stripped, so a doubly wrapped name would keep its inner
layer; the code's `strip("{}[]")` removes every leading and trailing
bracket character, so `[[kworker]]` labels as `kworker`, not
`[kworker]`. -/
theorem c8_counterexample_double_wrap :
    procLabel (some "[[kworker]]") 0 = some "kworker" ∧
    procLabel (some "[[kworker]]") 0 ≠ some "[kworker]" := by
  exact ⟨by decide, by decide⟩

/-- C8, amended.  The series label for rank slot `i` (0-based): `#<i+1>`
when the name is absent (or empty, which is falsy); otherwise the first
whitespace token's final path segment with ALL leading and trailing
`{`, `}`, `[`, `]` characters stripped — arbitrarily many wrapping
layers, not just one. -/
theorem c8_series_label_rule (i : Nat) :
    procLabel none i = some ("#" ++ toString (i + 1)) ∧
    procLabel (some "") i = some ("#" ++ toString (i + 1)) ∧
    (∀ s t ts, pySplit s = t :: ts →
      procLabel (some s) i = some (pyStripChars (pyBasename t) ['{', '}', '[', ']'])) ∧
    (∀ pre core post : List Char,
      (∀ c ∈ pre, (['{', '}', '[', ']'] : List Char).contains c = true) →
      (∀ c ∈ post, (['{', '}', '[', ']'] : List Char).contains c = true) →
      (∀ c ∈ core, (['{', '}', '[', ']'] : List Char).contains c = false) →
      pyStripChars (String.mk (pre ++ core ++ post)) ['{', '}', '[', ']'] = String.mk core) := by
  refine ⟨rfl, rfl, ?_, ?_⟩
  · intro s t ts hsplit
    have hs : s ≠ "" := by
      intro h
      subst h
      rw [show pySplit "" = [] from rfl] at hsplit
      exact absurd hsplit (by simp)
    simp only [procLabel, optStrCell, cellLabel]
    rw [if_pos (by simp [cellTruthy, hs])]
    show (match pySplit s with
          | [] => none
          | t :: _ => some (pyStripChars (pyBasename t) ['{', '}', '[', ']'])) = _
    rw [hsplit]
  · intro pre core post hp hq hc
    unfold pyStripChars
    rw [show (String.mk (pre ++ core ++ post)).toList = pre ++ core ++ post from rfl]
    rw [pyStripCharsList_sandwich pre post core hp hq hc]

/-- Witness for C8's amended theorem: a pathed command line labels by
basename, and a mixed double bracket wrapping strips entirely. -/
theorem c8_series_label_rule_witness :
    procLabel (some "/usr/sbin/httpd -k start") 2 = some "httpd" ∧
    pyStripChars (String.mk (['{', '['] ++ "kworker".toList ++ [']', '}']))
      ['{', '}', '[', ']'] = String.mk "kworker".toList := by
  constructor
  · rw [(c8_series_label_rule 2).2.2.1 "/usr/sbin/httpd -k start" "/usr/sbin/httpd"
      ["-k", "start"] (by decide)]
    decide
  · exact (c8_series_label_rule 2).2.2.2 ['{', '['] "kworker".toList [']', '}']
      (by decide) (by decide) (by decide)

/-! ### Claim theorems: dashboard regeneration gating (C1) -/

lemma getSheet_of_not_hasSheet (wb : Workbook) (n : String) (h : hasSheet wb n = false) :
    getSheet wb n = ⟨[], []⟩ := by
  simp only [hasSheet] at h
  simp only [getSheet]
  cases hl : lookupSheet wb.sheets n with
  | none => rfl
  | some sh => rw [hl] at h; exact absurd h (by simp)

lemma hasSheet_addChart (wb : Workbook) (n : String) (c : Chart) (m : String) :
    hasSheet (addChart wb n c) m = hasSheet wb m :=
  hasSheet_setSheet wb n _ m

lemma getSheet_addChart_ne (wb : Workbook) (n : String) (c : Chart) (m : String)
    (hmn : ¬ m = n) : getSheet (addChart wb n c) m = getSheet wb m :=
  getSheet_setSheet_ne wb n m _ hmn

lemma getSheet_addChart_self (wb : Workbook) (n : String) (c : Chart)
    (h : hasSheet wb n = true) :
    getSheet (addChart wb n c) n = ⟨(getSheet wb n).rows, (getSheet wb n).charts ++ [c]⟩ :=
  getSheet_setSheet_self wb n _ h

lemma hasSheet_appendRow (wb : Workbook) (n : String) (r : List Cell) (m : String) :
    hasSheet (appendRow wb n r) m = hasSheet wb m :=
  hasSheet_setSheet wb n _ m

lemma getSheet_appendRow_ne (wb : Workbook) (n : String) (r : List Cell) (m : String)
    (hmn : ¬ m = n) : getSheet (appendRow wb n r) m = getSheet wb m :=
  getSheet_setSheet_ne wb n m _ hmn

lemma getSheet_appendRow_self (wb : Workbook) (n : String) (r : List Cell)
    (h : hasSheet wb n = true) :
    getSheet (appendRow wb n r) n = ⟨(getSheet wb n).rows ++ [r], (getSheet wb n).charts⟩ :=
  getSheet_setSheet_self wb n _ h

/-- Facts about the workbook state after the Dashboard sheet has been
replaced and the two aggregate charts anchored, for an arbitrary starting
workbook. -/
lemma wbC_facts (wb wbA wbC : Workbook) (c1 c2 : Chart)
    (hA : wbA = if hasSheet wb "Dashboard" then removeSheet wb "Dashboard" else wb)
    (hC : wbC = addChart (addChart (createSheet wbA "Dashboard") "Dashboard" c1)
      "Dashboard" c2) :
    hasSheet wbC "Top Processes" = hasSheet wb "Top Processes" ∧
    getSheet wbC "Top Processes" = getSheet wb "Top Processes" ∧
    hasSheet wbC "Dashboard" = true ∧
    getSheet wbC "Dashboard" = ⟨[], [c1, c2]⟩ := by
  have hAdash : hasSheet wbA "Dashboard" = false := by
    rw [hA]
    by_cases h : hasSheet wb "Dashboard" = true
    · rw [if_pos (by simp [h])]
      exact hasSheet_removeSheet_self wb "Dashboard"
    · rw [if_neg (by simp [h])]
      simpa using h
  have hATP : hasSheet wbA "Top Processes" = hasSheet wb "Top Processes" := by
    rw [hA]
    by_cases h : hasSheet wb "Dashboard" = true
    · rw [if_pos (by simp [h])]
      exact hasSheet_removeSheet_ne wb "Dashboard" "Top Processes" (by decide)
    · rw [if_neg (by simp [h])]
  have hATPg : getSheet wbA "Top Processes" = getSheet wb "Top Processes" := by
    rw [hA]
    by_cases h : hasSheet wb "Dashboard" = true
    · rw [if_pos (by simp [h])]
      exact getSheet_removeSheet_ne wb "Dashboard" "Top Processes" (by decide)
    · rw [if_neg (by simp [h])]
  have hB1 : hasSheet (createSheet wbA "Dashboard") "Dashboard" = true :=
    hasSheet_createSheet_self wbA "Dashboard"
  refine ⟨?_, ?_, ?_, ?_⟩
  · rw [hC, hasSheet_addChart, hasSheet_addChart,
      hasSheet_createSheet_ne wbA "Dashboard" "Top Processes" (by decide), hATP]
  · rw [hC, getSheet_addChart_ne _ _ _ _ (by decide), getSheet_addChart_ne _ _ _ _ (by decide),
      getSheet_createSheet_ne wbA "Dashboard" "Top Processes" (by decide), hATPg]
  · rw [hC, hasSheet_addChart, hasSheet_addChart, hB1]
  · rw [hC, getSheet_addChart_self _ _ _ (by rw [hasSheet_addChart]; exact hB1),
      getSheet_addChart_self _ _ _ hB1, getSheet_createSheet_self wbA "Dashboard" hAdash]
    rfl

lemma perProcessCharts_skip (wbC : Workbook) (l : Bool) (disk : Option Workbook)
    (h : hasSheet wbC "Top Processes" = false ∨
      (getSheet wbC "Top Processes").rows.length < 2) :
    perProcessCharts wbC l disk = some (wbC, disk) := by
  by_cases htp : hasSheet wbC "Top Processes" = true
  · have hlen : (getSheet wbC "Top Processes").rows.length < 2 := by
      rcases h with h | h
      · rw [htp] at h
        exact absurd h (by simp)
      · exact h
    simp only [perProcessCharts]
    rw [if_neg (by simp [htp]), if_pos (by simp only [maxRow]; omega)]
  · simp only [perProcessCharts]
    rw [if_pos (by simp_all)]

lemma perProcessCharts_full (wbC : Workbook) (l : Bool) (disk : Option Workbook)
    (ls : List String)
    (htp : hasSheet wbC "Top Processes" = true)
    (h2 : 2 ≤ (getSheet wbC "Top Processes").rows.length)
    (hlab : computeLabels (getSheet wbC "Top Processes") (List.range 10) = some ls) :
    perProcessCharts wbC l disk =
      some (addChart (addChart wbC "Dashboard" ⟨"Top 10 Processes — CPU%", ls⟩)
              "Dashboard" ⟨"Top 10 Processes — MEM%", ls⟩,
            if l then disk
            else some (addChart (addChart wbC "Dashboard" ⟨"Top 10 Processes — CPU%", ls⟩)
              "Dashboard" ⟨"Top 10 Processes — MEM%", ls⟩)) := by
  simp only [perProcessCharts]
  rw [if_neg (by simp [htp]), if_neg (by simp only [maxRow]; omega), hlab]
  cases l <;> rfl

/-- C1.  Dashboard regeneration gating: with fewer than 2 populated Logs
rows the call is a complete no-op (workbook and file untouched); with the
Top Processes sheet absent or under 2 rows nothing is saved, so the file
and any previously saved Dashboard stay unchanged; with both tables at 2
or more rows (and the label computation not raising) the Dashboard is
rebuilt with exactly 4 charts and saved when the file is not locked. -/
theorem c1_dashboard_regeneration_gating (wb : Workbook) (locked : Bool)
    (disk : Option Workbook) :
    ((getSheet wb "Logs").rows.length < 2 →
      update_dashboard wb locked disk = some (wb, disk)) ∧
    ((hasSheet wb "Top Processes" = false ∨ (getSheet wb "Top Processes").rows.length < 2) →
      ∃ w, update_dashboard wb locked disk = some (w, disk)) ∧
    (∀ ls, 2 ≤ (getSheet wb "Logs").rows.length →
      hasSheet wb "Top Processes" = true →
      2 ≤ (getSheet wb "Top Processes").rows.length →
      computeLabels (getSheet wb "Top Processes") (List.range 10) = some ls →
      ∃ w, update_dashboard wb locked disk = some (w, if locked then disk else some w) ∧
        (getSheet w "Dashboard").charts.length = 4 ∧
        (getSheet w "Dashboard").charts.map Chart.title =
          ["CPU Load (1-min avg)", "Active Process Count",
           "Top 10 Processes — CPU%", "Top 10 Processes — MEM%"]) := by
  refine ⟨?_, ?_, ?_⟩
  · intro h1
    by_cases hlog : hasSheet wb "Logs" = true
    · simp only [update_dashboard]
      rw [if_neg (by simp [hlog]), if_pos (by simp only [maxRow]; omega)]
    · simp only [update_dashboard]
      rw [if_pos (by simp [hlog])]
  · intro h2
    by_cases hlog : hasSheet wb "Logs" = true
    · by_cases hlen : (getSheet wb "Logs").rows.length < 2
      · refine ⟨wb, ?_⟩
        simp only [update_dashboard]
        rw [if_neg (by simp [hlog]), if_pos (by simp only [maxRow]; omega)]
      · simp only [update_dashboard]
        rw [if_neg (by simp [hlog]), if_neg (by simp only [maxRow]; omega)]
        obtain ⟨f1, f2, -, -⟩ := wbC_facts wb _ _ _ _ rfl rfl
        refine ⟨_, perProcessCharts_skip _ locked disk ?_⟩
        rw [f1, f2]
        exact h2
    · refine ⟨wb, ?_⟩
      simp only [update_dashboard]
      rw [if_pos (by simp [hlog])]
  · intro ls hlen2 htp htp2 hlab
    have hlog : hasSheet wb "Logs" = true := by
      by_contra h
      have := getSheet_of_not_hasSheet wb "Logs" (by simpa using h)
      rw [this] at hlen2
      simp at hlen2
    simp only [update_dashboard]
    rw [if_neg (by simp [hlog]), if_neg (by simp only [maxRow]; omega)]
    obtain ⟨f1, f2, f3, f4⟩ := wbC_facts wb _ _ _ _ rfl rfl
    rw [perProcessCharts_full _ locked disk ls (by rw [f1]; exact htp)
      (by rw [f2]; exact htp2) (by rw [f2]; exact hlab)]
    refine ⟨_, rfl, ?_, ?_⟩
    · rw [getSheet_addChart_self _ _ _ (by rw [hasSheet_addChart]; exact f3),
        getSheet_addChart_self _ _ _ f3, f4]
      rfl
    · rw [getSheet_addChart_self _ _ _ (by rw [hasSheet_addChart]; exact f3),
        getSheet_addChart_self _ _ _ f3, f4]
      rfl

/-- Witness for C1 at `wbEx` with no lock: the call succeeds, saves, and
the saved Dashboard has exactly 4 charts. -/
theorem c1_dashboard_regeneration_gating_witness :
    (update_dashboard wbEx false none).map
        (fun pr => (getSheet pr.1 "Dashboard").charts.length) = some 4 ∧
    (update_dashboard wbEx false none).map
        (fun pr => decide (pr.2 = some pr.1)) = some true := by
  obtain ⟨w, hw, hlen, -⟩ :=
    (c1_dashboard_regeneration_gating wbEx false none).2.2
      ["#1", "#2", "#3", "#4", "#5", "#6", "#7", "#8", "#9", "#10"]
      (by decide) (by decide) (by decide) (by decide)
  rw [show (if false then (none : Option Workbook) else some w) = some w from rfl] at hw
  constructor
  · rw [hw]
    simp [hlen]
  · rw [hw]
    simp

/-! ### Claim theorems: locked saves (C5, C6) -/

lemma ensure_sheet_of_hasSheet (wb : Workbook) (n : String) (hs : List Cell)
    (h : hasSheet wb n = true) : ensure_sheet wb n hs = wb := by
  simp only [ensure_sheet]
  rw [if_pos (by simp [h])]

/-- C5.  A save-time lock makes `update_excel` return `None` with the
file untouched; the cycle completes without crashing and without any
dashboard regeneration, leaving the file exactly as last saved; the next
unlocked cycle appends exactly one row to each table of the last saved
state — not to an inflated in-memory state. -/
theorem c5_locked_save_skips_cycle (disk : Option Workbook) (d d2 : Snapshot) (b : Bool) :
    update_excel disk false true d = ⟨none, disk⟩ ∧
    cycleStep disk false true b d = some disk ∧
    (∀ wb0, disk = some wb0 → hasSheet wb0 "Logs" = true →
      hasSheet wb0 "Top Processes" = true →
      ∃ wb2, update_excel disk false false d2 = ⟨some wb2, some wb2⟩ ∧
        (getSheet wb2 "Logs").rows = (getSheet wb0 "Logs").rows ++ [logsRowOf d2] ∧
        (getSheet wb2 "Top Processes").rows =
          (getSheet wb0 "Top Processes").rows ++ [tpRowOf d2]) := by
  have h1 : update_excel disk false true d = ⟨none, disk⟩ := by
    cases disk <;> rfl
  refine ⟨h1, ?_, ?_⟩
  · simp only [cycleStep]
    rw [h1]
  · intro wb0 hdisk hlog htp
    subst hdisk
    refine ⟨appendRow (appendRow wb0 "Logs" (logsRowOf d2)) "Top Processes" (tpRowOf d2),
      ?_, ?_, ?_⟩
    · show updateExcelBody wb0 (some wb0) false d2 = _
      simp only [updateExcelBody]
      rw [ensure_sheet_of_hasSheet wb0 "Logs" logsHeaders hlog,
        ensure_sheet_of_hasSheet _ "Top Processes" tpHeaders
          (by rw [hasSheet_appendRow]; exact htp)]
      rfl
    · rw [getSheet_appendRow_ne _ _ _ _ (by decide),
        getSheet_appendRow_self _ _ _ hlog]
    · rw [getSheet_appendRow_self _ _ _ (by rw [hasSheet_appendRow]; exact htp),
        getSheet_appendRow_ne _ _ _ _ (by decide)]

/-- Witness for C5 from a one-row saved state: the locked cycle is a
no-op on the file, and the next cycle appends a single row per table. -/
theorem c5_locked_save_skips_cycle_witness :
    cycleStep (some wbEx) false true false
      (harvest_data "t1" none none none) = some (some wbEx) ∧
    (update_excel (some wbEx) false false
        (harvest_data "t2" none none none)).ret.map
      (fun wb => (getSheet wb "Logs").rows.length) = some 3 := by
  constructor
  · exact (c5_locked_save_skips_cycle (some wbEx)
      (harvest_data "t1" none none none) (harvest_data "t2" none none none) false).2.1
  · obtain ⟨wb2, hwb2, hrows, -⟩ :=
      (c5_locked_save_skips_cycle (some wbEx) (harvest_data "t1" none none none)
        (harvest_data "t2" none none none) false).2.2 wbEx rfl
        (by decide) (by decide)
    rw [hwb2]
    show some (getSheet wb2 "Logs").rows.length = some 3
    rw [hrows]
    decide

/-- C6, counterexample.  With the first cycle's save locked, the file
stays absent — nothing reached disk — and the next cycle's saved Logs
table holds only the header and the second snapshot's row: the first
cycle's in-memory appends did not survive for a retry. -/
theorem c6_counterexample_no_retry :
    cycleStep none false true false d1ex = some none ∧
    (cycleStep none false false false d2ex).map
        (fun disk => disk.map (fun wb => (getSheet wb "Logs").rows)) =
      some (some [logsHeaders, logsRowOf d2ex]) ∧
    logsRowOf d1ex ≠ logsRowOf d2ex := by
  refine ⟨by decide, by decide, by decide⟩

/-- C6, amended.  When the save hits the `Locked` condition nothing from
that cycle reaches disk, and the in-memory appends do NOT survive: the
function returns `None` (discarding the workbook object), the cycle ends
with the file exactly as last saved, and the next cycle re-opens that
file, so the locked cycle's snapshot is lost rather than retried. -/
theorem c6_locked_save_discards_appends (disk : Option Workbook) (d : Snapshot) (b : Bool) :
    (update_excel disk false true d).ret = none ∧
    (update_excel disk false true d).disk = disk ∧
    cycleStep disk false true b d = some disk := by
  have h1 : update_excel disk false true d = ⟨none, disk⟩ := by
    cases disk <;> rfl
  refine ⟨by rw [h1], by rw [h1], ?_⟩
  simp only [cycleStep]
  rw [h1]

/-! ### The dashboard label computation never raises on harvested rows -/

lemma getD_append_last {α : Type} : ∀ (xs : List α) (x : α) (d : α),
    (xs ++ [x]).getD xs.length d = x
  | [], _, _ => rfl
  | _ :: ys, x, d => getD_append_last ys x d

lemma getD_append_left {α : Type} (l1 l2 : List α) (n : Nat) (h : l1.length ≤ n)
    (d : α) : (l1 ++ l2).getD n d = l2.getD (n - l1.length) d := by
  simp [List.getD_eq_getElem?_getD, List.getElem?_append_right h]

lemma flatMap_tpTriple_getD : ∀ (l : List ProcessSample) (i : Nat), i < l.length →
    (l.flatMap tpTriple).getD (3 * i) Cell.empty = optStrCell ((l.getD i emptySample).name)
  | [], i, h => absurd h (by simp)
  | p :: rest, 0, _ => by
    rw [List.flatMap_cons]
    rfl
  | p :: rest, i + 1, h => by
    rw [List.flatMap_cons]
    have h3 : (tpTriple p).length = 3 := rfl
    rw [getD_append_left _ _ _ (by omega), h3,
      show 3 * (i + 1) - 3 = 3 * i by omega, List.getD_cons_succ]
    exact flatMap_tpTriple_getD rest i (by simpa using h)

lemma cellLabel_isSome_of_nameOk (o : Option String) (i : Nat) (h : nameOk o) :
    ∃ l, cellLabel (optStrCell o) i = some l := by
  cases o with
  | none => exact ⟨_, rfl⟩
  | some s =>
    by_cases hs : s = ""
    · subst hs
      exact ⟨_, rfl⟩
    · rcases h s rfl with h0 | hsp
      · exact absurd h0 hs
      · obtain ⟨t, ts, hts⟩ : ∃ t ts, pySplit s = t :: ts := by
          cases hps : pySplit s with
          | nil => exact absurd hps hsp
          | cons t ts => exact ⟨t, ts, rfl⟩
        refine ⟨pyStripChars (pyBasename t) ['{', '}', '[', ']'], ?_⟩
        simp only [optStrCell, cellLabel]
        rw [if_pos (by simp [cellTruthy, hs])]
        show (match pySplit s with
              | [] => none
              | t :: _ => some (pyStripChars (pyBasename t) ['{', '}', '[', ']'])) = _
        rw [hts]

lemma computeLabels_some (tp : Sheet) :
    ∀ is : List Nat,
      (∀ i ∈ is, ∃ l, cellLabel (getCell tp (maxRow tp) (2 + i * 3)) i = some l) →
      ∃ ls, computeLabels tp is = some ls
  | [], _ => ⟨[], rfl⟩
  | i :: is, h => by
    obtain ⟨l, hl⟩ := h i (by simp)
    obtain ⟨ls, hls⟩ := computeLabels_some tp is fun j hj => h j (by simp [hj])
    refine ⟨l :: ls, ?_⟩
    simp only [computeLabels]
    rw [hl, hls]

/-- On a Top Processes sheet whose last row was written for a harvested
snapshot, the ten series labels compute without raising. -/
lemma computeLabels_tpSheet (mid2 : List (List Cell)) (d : Snapshot) (hd : snapOk d) :
    ∃ ls, computeLabels ⟨tpHeaders :: (mid2 ++ [tpRowOf d]), []⟩ (List.range 10) = some ls := by
  apply computeLabels_some
  intro i hi
  have hi10 : i < 10 := List.mem_range.mp hi
  have hmax : maxRow ⟨tpHeaders :: (mid2 ++ [tpRowOf d]), []⟩ = mid2.length + 2 := by
    simp [maxRow, List.length_append]
  have hcell : getCell ⟨tpHeaders :: (mid2 ++ [tpRowOf d]), []⟩ (mid2.length + 2) (2 + i * 3) =
      optStrCell ((d.top_processes.getD i emptySample).name) := by
    simp only [getCell]
    rw [show mid2.length + 2 - 1 = mid2.length + 1 from rfl, List.getD_cons_succ,
      getD_append_last, show 2 + i * 3 - 1 = 3 * i + 1 by omega]
    simp only [tpRowOf, List.getD_cons_succ]
    exact flatMap_tpTriple_getD d.top_processes i (by rw [hd.1]; exact hi10)
  rw [hmax, hcell]
  refine cellLabel_isSome_of_nameOk _ i (hd.2 _ ?_)
  have hlt : i < d.top_processes.length := by
    rw [hd.1]
    exact hi10
  rw [List.getD_eq_getElem d.top_processes emptySample hlt]
  exact List.getElem_mem hlt

/-! ### The append-only invariant of repeated cycles (C2) -/

lemma perProcessCharts_chain (L mid2 : List (List Cell)) (d : Snapshot) (hd : snapOk d)
    (disk : Option Workbook) (c1 c2 : Chart) :
    ∃ dashSheet, perProcessCharts
        ⟨[("Logs", ⟨L, []⟩), ("Top Processes", ⟨tpHeaders :: (mid2 ++ [tpRowOf d]), []⟩),
          ("Dashboard", ⟨[], [c1, c2]⟩)]⟩ false disk =
      some (⟨[("Logs", ⟨L, []⟩), ("Top Processes", ⟨tpHeaders :: (mid2 ++ [tpRowOf d]), []⟩),
              ("Dashboard", dashSheet)]⟩,
            some ⟨[("Logs", ⟨L, []⟩),
              ("Top Processes", ⟨tpHeaders :: (mid2 ++ [tpRowOf d]), []⟩),
              ("Dashboard", dashSheet)]⟩) := by
  obtain ⟨ls, hls⟩ := computeLabels_tpSheet mid2 d hd
  have h1 : hasSheet
      ⟨[("Logs", ⟨L, []⟩), ("Top Processes", ⟨tpHeaders :: (mid2 ++ [tpRowOf d]), []⟩),
        ("Dashboard", ⟨[], [c1, c2]⟩)]⟩ "Top Processes" = true := rfl
  have h2 : getSheet
      ⟨[("Logs", ⟨L, []⟩), ("Top Processes", ⟨tpHeaders :: (mid2 ++ [tpRowOf d]), []⟩),
        ("Dashboard", ⟨[], [c1, c2]⟩)]⟩ "Top Processes" =
      ⟨tpHeaders :: (mid2 ++ [tpRowOf d]), []⟩ := rfl
  simp only [perProcessCharts]
  rw [if_neg (by simp [h1]), h2,
    if_neg (show ¬ maxRow (⟨tpHeaders :: (mid2 ++ [tpRowOf d]), []⟩ : Sheet) < 2 by
      simp only [maxRow, List.length_cons, List.length_append]
      omega),
    hls]
  refine ⟨⟨[], [c1, c2, ⟨"Top 10 Processes — CPU%", ls⟩, ⟨"Top 10 Processes — MEM%", ls⟩]⟩, ?_⟩
  rfl

/-- A full successful `update_dashboard` run on the workbook state left
by `update_excel`: the tables are untouched and a fresh Dashboard sheet
sits at the end; the result is saved. -/
lemma update_dashboard_run (L : List (List Cell)) (hL : 2 ≤ L.length)
    (mid2 : List (List Cell)) (d : Snapshot) (hd : snapOk d)
    (rest : List (String × Sheet))
    (hrest : rest = [] ∨ ∃ dash, rest = [("Dashboard", dash)]) (disk : Option Workbook) :
    ∃ dashSheet, update_dashboard
        ⟨("Logs", ⟨L, []⟩) :: ("Top Processes", ⟨tpHeaders :: (mid2 ++ [tpRowOf d]), []⟩) :: rest⟩
        false disk =
      some (⟨[("Logs", ⟨L, []⟩), ("Top Processes", ⟨tpHeaders :: (mid2 ++ [tpRowOf d]), []⟩),
              ("Dashboard", dashSheet)]⟩,
            some ⟨[("Logs", ⟨L, []⟩),
              ("Top Processes", ⟨tpHeaders :: (mid2 ++ [tpRowOf d]), []⟩),
              ("Dashboard", dashSheet)]⟩) := by
  rcases hrest with rfl | ⟨dash, rfl⟩
  · have h1 : hasSheet
        ⟨[("Logs", ⟨L, []⟩), ("Top Processes", ⟨tpHeaders :: (mid2 ++ [tpRowOf d]), []⟩)]⟩
        "Logs" = true := rfl
    have h2 : getSheet
        ⟨[("Logs", ⟨L, []⟩), ("Top Processes", ⟨tpHeaders :: (mid2 ++ [tpRowOf d]), []⟩)]⟩
        "Logs" = ⟨L, []⟩ := rfl
    have h3 : hasSheet
        ⟨[("Logs", ⟨L, []⟩), ("Top Processes", ⟨tpHeaders :: (mid2 ++ [tpRowOf d]), []⟩)]⟩
        "Dashboard" = false := rfl
    simp only [update_dashboard]
    rw [if_neg (by simp [h1]), h2,
      if_neg (show ¬ maxRow (⟨L, []⟩ : Sheet) < 2 by simp only [maxRow]; omega),
      if_neg (by simp [h3])]
    exact perProcessCharts_chain L mid2 d hd disk
      ⟨"CPU Load (1-min avg)", [cellText (getCell ⟨L, []⟩ 1 2)]⟩
      ⟨"Active Process Count", [cellText (getCell ⟨L, []⟩ 1 3)]⟩
  · have h1 : hasSheet
        ⟨[("Logs", ⟨L, []⟩), ("Top Processes", ⟨tpHeaders :: (mid2 ++ [tpRowOf d]), []⟩),
          ("Dashboard", dash)]⟩ "Logs" = true := rfl
    have h2 : getSheet
        ⟨[("Logs", ⟨L, []⟩), ("Top Processes", ⟨tpHeaders :: (mid2 ++ [tpRowOf d]), []⟩),
          ("Dashboard", dash)]⟩ "Logs" = ⟨L, []⟩ := rfl
    have h3 : hasSheet
        ⟨[("Logs", ⟨L, []⟩), ("Top Processes", ⟨tpHeaders :: (mid2 ++ [tpRowOf d]), []⟩),
          ("Dashboard", dash)]⟩ "Dashboard" = true := rfl
    simp only [update_dashboard]
    rw [if_neg (by simp [h1]), h2,
      if_neg (show ¬ maxRow (⟨L, []⟩ : Sheet) < 2 by simp only [maxRow]; omega),
      if_pos (by simp [h3])]
    exact perProcessCharts_chain L mid2 d hd disk
      ⟨"CPU Load (1-min avg)", [cellText (getCell ⟨L, []⟩ 1 2)]⟩
      ⟨"Active Process Count", [cellText (getCell ⟨L, []⟩ 1 3)]⟩

/-- One fully unlocked cycle preserves the append-only invariant: each
table gains exactly its one new row and the Dashboard is rebuilt. -/
lemma cycleStep_good (snaps : List Snapshot) (disk : Option Workbook) (d : Snapshot)
    (hd : snapOk d) (hgood : diskAfter snaps disk) :
    ∃ disk2, cycleStep disk false false false d = some disk2 ∧
      diskAfter (snaps ++ [d]) disk2 := by
  cases snaps with
  | nil =>
    have hdisk : disk = none := hgood
    subst hdisk
    have hex : update_excel none false false d =
        ⟨some ⟨[("Logs", ⟨[logsHeaders, logsRowOf d], []⟩),
                ("Top Processes", ⟨tpHeaders :: ([] ++ [tpRowOf d]), []⟩)]⟩,
         some ⟨[("Logs", ⟨[logsHeaders, logsRowOf d], []⟩),
                ("Top Processes", ⟨tpHeaders :: ([] ++ [tpRowOf d]), []⟩)]⟩⟩ := rfl
    obtain ⟨dashSheet, hrun⟩ := update_dashboard_run [logsHeaders, logsRowOf d] (by simp)
      [] d hd [] (Or.inl rfl)
      (some ⟨[("Logs", ⟨[logsHeaders, logsRowOf d], []⟩),
        ("Top Processes", ⟨tpHeaders :: ([] ++ [tpRowOf d]), []⟩)]⟩)
    have hstep : cycleStep none false false false d =
        (match update_dashboard
            ⟨[("Logs", ⟨[logsHeaders, logsRowOf d], []⟩),
              ("Top Processes", ⟨tpHeaders :: ([] ++ [tpRowOf d]), []⟩)]⟩ false
            (some ⟨[("Logs", ⟨[logsHeaders, logsRowOf d], []⟩),
              ("Top Processes", ⟨tpHeaders :: ([] ++ [tpRowOf d]), []⟩)]⟩) with
          | none => none
          | some pr => some pr.2) := by
      simp only [cycleStep]
      rw [hex]
    rw [hstep, hrun]
    exact ⟨_, rfl, dashSheet, rfl⟩
  | cons s ss =>
    obtain ⟨dash, hdisk⟩ := hgood
    subst hdisk
    have hex : update_excel
        (some ⟨[("Logs", ⟨logsHeaders :: (s :: ss).map logsRowOf, []⟩),
                ("Top Processes", ⟨tpHeaders :: (s :: ss).map tpRowOf, []⟩),
                ("Dashboard", dash)]⟩) false false d =
        ⟨some ⟨[("Logs", ⟨(logsHeaders :: (s :: ss).map logsRowOf) ++ [logsRowOf d], []⟩),
                ("Top Processes", ⟨tpHeaders :: ((s :: ss).map tpRowOf ++ [tpRowOf d]), []⟩),
                ("Dashboard", dash)]⟩,
         some ⟨[("Logs", ⟨(logsHeaders :: (s :: ss).map logsRowOf) ++ [logsRowOf d], []⟩),
                ("Top Processes", ⟨tpHeaders :: ((s :: ss).map tpRowOf ++ [tpRowOf d]), []⟩),
                ("Dashboard", dash)]⟩⟩ := rfl
    obtain ⟨dashSheet, hrun⟩ := update_dashboard_run
      ((logsHeaders :: (s :: ss).map logsRowOf) ++ [logsRowOf d]) (by simp)
      ((s :: ss).map tpRowOf) d hd [("Dashboard", dash)] (Or.inr ⟨dash, rfl⟩)
      (some ⟨[("Logs", ⟨(logsHeaders :: (s :: ss).map logsRowOf) ++ [logsRowOf d], []⟩),
        ("Top Processes", ⟨tpHeaders :: ((s :: ss).map tpRowOf ++ [tpRowOf d]), []⟩),
        ("Dashboard", dash)]⟩)
    have hstep : cycleStep
        (some ⟨[("Logs", ⟨logsHeaders :: (s :: ss).map logsRowOf, []⟩),
                ("Top Processes", ⟨tpHeaders :: (s :: ss).map tpRowOf, []⟩),
                ("Dashboard", dash)]⟩) false false false d =
        (match update_dashboard
            ⟨[("Logs", ⟨(logsHeaders :: (s :: ss).map logsRowOf) ++ [logsRowOf d], []⟩),
              ("Top Processes", ⟨tpHeaders :: ((s :: ss).map tpRowOf ++ [tpRowOf d]), []⟩),
              ("Dashboard", dash)]⟩ false
            (some ⟨[("Logs", ⟨(logsHeaders :: (s :: ss).map logsRowOf) ++ [logsRowOf d], []⟩),
              ("Top Processes", ⟨tpHeaders :: ((s :: ss).map tpRowOf ++ [tpRowOf d]), []⟩),
              ("Dashboard", dash)]⟩) with
          | none => none
          | some pr => some pr.2) := by
      simp only [cycleStep]
      rw [hex]
    rw [hstep, hrun]
    refine ⟨_, rfl, dashSheet, ?_⟩
    rw [show ((s :: ss) ++ [d]).map logsRowOf = (s :: ss).map logsRowOf ++ [logsRowOf d] from
        by simp,
      show ((s :: ss) ++ [d]).map tpRowOf = (s :: ss).map tpRowOf ++ [tpRowOf d] from by simp]
    rfl

lemma runCycles_invariant :
    ∀ (inputs : List CycleInput) (snaps : List Snapshot) (disk : Option Workbook),
      diskAfter snaps disk →
      ∃ disk2,
        inputs.foldlM (fun dsk inp => cycleStep dsk false false false (harvestOf inp)) disk =
          some disk2 ∧
        diskAfter (snaps ++ inputs.map harvestOf) disk2
  | [], snaps, disk, h => ⟨disk, by simp, by simpa using h⟩
  | inp :: rest, snaps, disk, h => by
    obtain ⟨disk1, hstep, hgood1⟩ := cycleStep_good snaps disk (harvestOf inp)
      (harvest_snapOk inp.ts inp.loadavg_raw inp.ps_raw inp.top_raw) h
    obtain ⟨disk2, hfold, hgood2⟩ :=
      runCycles_invariant rest (snaps ++ [harvestOf inp]) disk1 hgood1
    refine ⟨disk2, ?_, ?_⟩
    · rw [List.foldlM_cons, hstep]
      simpa using hfold
    · rw [show snaps ++ (inp :: rest).map harvestOf =
          (snaps ++ [harvestOf inp]) ++ rest.map harvestOf from by simp]
      exact hgood2

/-- C2.  Append-only persistence: `_ensure_sheet` returns an existing
sheet's workbook unchanged (headers are never overwritten); one
successful `update_excel` appends exactly one row to each table,
rewriting nothing; and after `N` fully successful cycles from no file the
Logs and Top Processes tables hold their fixed header plus exactly the
`N` appended rows, in order — process restarts are invisible because the
only state carried between cycles is the file itself. -/
theorem c2_append_only_tables (inputs : List CycleInput) :
    (∀ wb n hs, hasSheet wb n = true → ensure_sheet wb n hs = wb) ∧
    (∀ wb d, hasSheet wb "Logs" = true → hasSheet wb "Top Processes" = true →
      ∃ wb2, update_excel (some wb) false false d = ⟨some wb2, some wb2⟩ ∧
        (getSheet wb2 "Logs").rows = (getSheet wb "Logs").rows ++ [logsRowOf d] ∧
        (getSheet wb2 "Top Processes").rows =
          (getSheet wb "Top Processes").rows ++ [tpRowOf d]) ∧
    (∃ disk, runCycles inputs = some disk ∧
      (inputs = [] → disk = none) ∧
      (inputs ≠ [] → ∃ wb, disk = some wb ∧
        (getSheet wb "Logs").rows = logsHeaders :: (inputs.map harvestOf).map logsRowOf ∧
        (getSheet wb "Top Processes").rows =
          tpHeaders :: (inputs.map harvestOf).map tpRowOf ∧
        (getSheet wb "Logs").rows.length = inputs.length + 1 ∧
        (getSheet wb "Top Processes").rows.length = inputs.length + 1)) := by
  refine ⟨ensure_sheet_of_hasSheet, ?_, ?_⟩
  · intro wb d hlog htp
    refine ⟨appendRow (appendRow wb "Logs" (logsRowOf d)) "Top Processes" (tpRowOf d),
      ?_, ?_, ?_⟩
    · show updateExcelBody wb (some wb) false d = _
      simp only [updateExcelBody]
      rw [ensure_sheet_of_hasSheet wb "Logs" logsHeaders hlog,
        ensure_sheet_of_hasSheet _ "Top Processes" tpHeaders
          (by rw [hasSheet_appendRow]; exact htp)]
      rfl
    · rw [getSheet_appendRow_ne _ _ _ _ (by decide),
        getSheet_appendRow_self _ _ _ hlog]
    · rw [getSheet_appendRow_self _ _ _ (by rw [hasSheet_appendRow]; exact htp),
        getSheet_appendRow_ne _ _ _ _ (by decide)]
  · obtain ⟨disk2, hfold, hgood⟩ := runCycles_invariant inputs [] none rfl
    refine ⟨disk2, hfold, ?_, ?_⟩
    · intro hnil
      subst hnil
      exact hgood
    · intro hne
      obtain ⟨inp, rest, rfl⟩ : ∃ inp rest, inputs = inp :: rest := by
        cases inputs with
        | nil => exact absurd rfl hne
        | cons inp rest => exact ⟨inp, rest, rfl⟩
      obtain ⟨dash, hdisk⟩ := hgood
      refine ⟨_, hdisk, rfl, rfl, ?_, ?_⟩ <;> simp [getSheet, lookupSheet]

/-- Witness for C2 at two concrete cycles: both tables end with the
header plus exactly two data rows, and `_ensure_sheet` leaves the
populated `wbEx` unchanged. -/
theorem c2_append_only_tables_witness :
    (runCycles inputsEx).map (fun dsk => dsk.map (fun wb =>
      ((getSheet wb "Logs").rows.length, (getSheet wb "Top Processes").rows.length))) =
      some (some (3, 3)) ∧
    ensure_sheet wbEx "Logs" logsHeaders = wbEx := by
  constructor
  · obtain ⟨-, -, disk, hrun, -, hne⟩ := c2_append_only_tables inputsEx
    obtain ⟨wb, hdisk, -, -, hlen1, hlen2⟩ := hne (by simp [inputsEx])
    rw [hrun, hdisk]
    simp [hlen1, hlen2, inputsEx]
  · exact (c2_append_only_tables []).1 wbEx "Logs" logsHeaders (by decide)

end OpenInsight
